import Mathlib

/-!
Verification of the vibedialer core: a shallow embedding in Lean 4 of the
phone-number validation / range-generation code (`validation.py`,
`dialer.py`), the resume engine (`resume.py`), the tone classifier and
recording ingest (`audio_analysis.py`) and the shutdown wait of the VoIP
backend (`backends/voip.py`), together with theorems settling the frozen
claims about this code.

Strings are embedded as `List Char`; Python floats are embedded as `ℚ`
(the classifier only compares and does field arithmetic, which is exact);
Python exceptions are embedded as `Except`.  All definitions are
executable, so concrete claims evaluate by `decide`/`rfl`.
-/

set_option maxRecDepth 16384

namespace Vibedialer

/-- Convert a Lean string literal to the `List Char` representation used
throughout the embedding. -/
def s2l (s : String) : List Char := s.toList

/-! ## validation.py (specialized to `CountryCode.USA`, the default used by
`resume.py` and by all claims: `format_spec` is the NANP spec with
`country_code = "1"`, `min_length = max_length = 10`). -/

/-- Membership in the Python string literal `"23456789"`, used for the
NANP leading-digit checks (`area_code[0] not in "23456789"` etc.). -/
def isNanpLeadDigit (c : Char) : Bool :=
  (['2', '3', '4', '5', '6', '7', '8', '9'] : List Char).contains c

/-- Embeds `PhoneNumberValidator.normalize_number`:
`re.sub(r"[^\d+]", "", phone_number)` keeps digits and every plus sign,
then a single leading `+` is stripped. -/
def normalize_number (phone_number : List Char) : List Char :=
  let normalized := phone_number.filter (fun c => c.isDigit || c == '+')
  match normalized with
  | '+' :: rest => rest
  | r => r

/-- Embeds `PhoneNumberValidator.validate_usa_nanp` (error messages
dropped, validity kept): length must be 10, `area_code[0]` and
`exchange[0]` must be in `"23456789"`, `area_code[1:3]` must not be
`"11"`, and all characters must be digits.  Note the source checks the
area code for N11 service codes but never the exchange code. -/
def validate_usa_nanp (digits : List Char) : Bool :=
  if digits.length ≠ 10 then false
  else
    let area_code := digits.take 3
    let exchange := (digits.drop 3).take 3
    if ¬ isNanpLeadDigit (area_code.headD ' ') then false
    else if area_code.drop 1 = ['1', '1'] then false
    else if ¬ isNanpLeadDigit (exchange.headD ' ') then false
    else digits.all Char.isDigit

/-- Embeds `PhoneNumberValidator.validate` for USA: strip the country
code `"1"` only when the normalized number has exactly 11 digits, check
the 10-digit length window, then run the NANP rules. -/
def validate (phone_number : List Char) : Bool :=
  let normalized := normalize_number phone_number
  let has_country_code := normalized.take 1 = ['1'] ∧ normalized.length = 11
  let digits := if has_country_code then normalized.drop 1 else normalized
  if digits.length < 10 then false
  else if digits.length > 10 then false
  else validate_usa_nanp digits

/-- The USA formatting step of `format_number`:
`f"{digits[0:3]}-{digits[3:6]}-{digits[6:10]}"`. -/
def dashFormat (digits : List Char) : List Char :=
  digits.take 3 ++ '-' :: ((digits.drop 3).take 3 ++ '-' :: (digits.drop 6).take 4)

/-- Embeds `PhoneNumberValidator.format_number` with
`include_country_code=False`: validate first (`none` on failure), then
re-normalize, strip an 11-digit country code, and join with dashes. -/
def format_number (phone_number : List Char) : Option (List Char) :=
  if ¬ validate phone_number then none
  else
    let normalized := normalize_number phone_number
    let has_country_code := normalized.take 1 = ['1'] ∧ normalized.length = 11
    let digits := if has_country_code then normalized.drop 1 else normalized
    some (dashFormat digits)

/-- Embeds `PhoneNumberValidator.validate_pattern` for USA: the country
code is stripped when the normalized digits start with `"1"` and have at
least 11 characters; at least an area code is required; the area code is
checked for a 2-9 leading digit and against N11; the exchange leading
digit is checked only when at least 6 digits are present; finally
`digits.isdigit()`. -/
def validate_pattern (pat : List Char) : Bool :=
  let normalized := normalize_number pat
  let has_country_code := normalized.take 1 = ['1'] ∧ 11 ≤ normalized.length
  let digits := if has_country_code then normalized.drop 1 else normalized
  if digits.length < 3 then false
  else
    let area_code := digits.take 3
    if ¬ isNanpLeadDigit (area_code.headD ' ') then false
    else if area_code.drop 1 = ['1', '1'] then false
    else if 6 ≤ digits.length ∧ ¬ isNanpLeadDigit (((digits.drop 3).take 3).headD ' ')
      then false
    else digits.all Char.isDigit && ¬ digits.isEmpty

/-! ## dialer.py: `PhoneDialer.generate_numbers` and
`PhoneDialer.count_numbers` (USA, so `target_length = 10`). -/

/-- Embeds `str(i).zfill(d)` as the `d`-digit zero-padded decimal
representation, most significant digit first: position `j` (from the
right) holds `digitChar (i / 10^j % 10)`.  This agrees with Python for
every `i < 10^d`, and `generate_numbers` only evaluates it on
`i ∈ range(10^d)`. -/
def natDigitsFixed : Nat → Nat → List Char
  | 0, _ => []
  | d + 1, i => Nat.digitChar (i / 10 ^ d % 10) :: natDigitsFixed d i

/-- One iteration of the generation loop of `generate_numbers`: build
`full_number = clean_number + suffix`, keep it only if it validates, and
return its formatted form. -/
def candidate (clean_number : List Char) (digits_needed : Nat) (i : Nat) :
    Option (List Char) :=
  let full_number := clean_number ++ natDigitsFixed digits_needed i
  if validate full_number then format_number full_number else none

/-- Embeds `PhoneDialer.generate_numbers` with `randomize=False` (the
only case the claims mention; `randomize=True` additionally applies
`random.shuffle`, a nondeterministic permutation of the same list).
Raising `ValueError` is embedded as `Except.error`. -/
def generate_numbers (partial_number : List Char) :
    Except String (List (List Char)) :=
  if ¬ validate_pattern partial_number then .error "invalid pattern"
  else
    let clean_number := normalize_number partial_number
    if 10 ≤ clean_number.length then
      if ¬ validate clean_number then .error "invalid number"
      else
        match format_number clean_number with
        | some formatted => .ok [formatted]
        | none => .ok []
    else
      let digits_needed := 10 - clean_number.length
      .ok ((List.range (10 ^ digits_needed)).filterMap
        (candidate clean_number digits_needed))

/-- Embeds `PhoneDialer.count_numbers` (USA branch): the closed-form
count with the NANP special cases for 3-, 4- and 5-digit patterns. -/
def count_numbers (partial_number : List Char) : Except String Nat :=
  if ¬ validate_pattern partial_number then .error "invalid pattern"
  else
    let clean_number := normalize_number partial_number
    if 10 ≤ clean_number.length then .ok 1
    else
      let digits_needed := 10 - clean_number.length
      if clean_number.length = 3 then .ok (8 * 10 ^ 6)
      else if clean_number.length = 4 then .ok (10 ^ 6)
      else if clean_number.length = 5 then .ok (10 ^ 5)
      else .ok (10 ^ digits_needed)

/-! ## resume.py -/

/-- Lexicographic-by-code-point comparison on strings, as Python uses for
`sorted` on strings. -/
def strLe : List Char → List Char → Bool
  | [], _ => true
  | _ :: _, [] => false
  | a :: as, b :: bs => if a < b then true else if b < a then false else strLe as bs

/-- Stable insertion of one string into a sorted list. -/
def insertSorted (x : List Char) : List (List Char) → List (List Char)
  | [] => [x]
  | y :: ys => if strLe x y then x :: y :: ys else y :: insertSorted x ys

/-- Embeds Python `sorted(numbers)` (ascending, stable) by insertion
sort; extensionally equal to Python's sort for the total order `strLe`. -/
def sortStrs (l : List (List Char)) : List (List Char) :=
  l.foldr insertSorted []

/-- The `zip(first, last, strict=False)` longest-common-head loop of
`infer_pattern_from_numbers`: extend while characters agree, stop at the
first mismatch or when either string ends. -/
def commonHead : List Char → List Char → List Char
  | c1 :: t1, c2 :: t2 => if c1 = c2 then c1 :: commonHead t1 t2 else []
  | _, _ => []

/-- Embeds `if s.endswith("-"): s = s[:-1]`. -/
def stripTrailingDash (l : List Char) : List Char :=
  if l.getLast? = some '-' then l.dropLast else l

/-- Embeds `common_prefix[:-trim] if len(common_prefix) > trim else
common_prefix`. -/
def pyTrim (l : List Char) (t : Nat) : List Char :=
  if t < l.length then l.take (l.length - t) else l

/-- One iteration of the trim loop of `infer_pattern_from_numbers`: trim
`t` characters, strip a trailing dash, and accept the candidate when at
least 2 non-dash characters remain. -/
def tryTrimCandidate (common : List Char) (t : Nat) : Option (List Char) :=
  let cand := stripTrailingDash (pyTrim common t)
  if 2 ≤ (cand.filter (fun c => c ≠ '-')).length then some cand else none

/-- The common prefix computed by `infer_pattern_from_numbers` before the
trim step: sort the numbers, take the character-wise common head of the
lexicographic first and last elements, and strip a trailing dash. -/
def inferCommon (numbers : List (List Char)) : List Char :=
  let number_list := sortStrs numbers
  stripTrailingDash (commonHead (number_list.headD []) (number_list.getLastD []))

/-- Embeds `infer_pattern_from_numbers` (the input set is represented as
a duplicate-free list): `None` on empty input; compute the common prefix
of the sorted first and last numbers; when its dash-free form has exactly
7 characters (a full 7-digit local number) try trimming 2 then 1 trailing
characters, keeping a candidate with at least 2 non-dash characters;
otherwise return the common prefix when it has at least 2 non-dash
characters. -/
def infer_pattern_from_numbers (numbers : List (List Char)) : Option (List Char) :=
  if numbers.isEmpty then none
  else
    let common := inferCommon numbers
    let clean := common.filter (fun c => c ≠ '-')
    if clean.length = 7 then
      match tryTrimCandidate common 2 with
      | some cand => some cand
      | none =>
        match tryTrimCandidate common 1 with
        | some cand => some cand
        | none => if 2 ≤ clean.length then some common else none
    else if 2 ≤ clean.length then some common
    else none

/-- Embeds `calculate_remaining_numbers` with `randomize=False` (the only
case the claims mention; `randomize=True` applies `random.shuffle` to the
same list): generate all numbers for the prefix, then keep those not in
`dialed`. -/
def calculate_remaining_numbers (pfx : List Char) (dialed : List (List Char)) :
    Except String (List (List Char)) :=
  (generate_numbers pfx).map
    (fun all_numbers => all_numbers.filter (fun num => decide (num ∉ dialed)))

/-- Embeds `prepare_resume` after `read_dialed_numbers` (file access is
outside the core; `dialed` is the set the storage adapter returned,
represented as a duplicate-free list).  Empty dialed set and failed
inference both raise `ValueError`, embedded as `Except.error`; the third
component is `len(remaining) + len(dialed)`. -/
def prepare_resume (dialed : List (List Char)) (pfx? : Option (List Char)) :
    Except String (List Char × List (List Char) × Nat × Nat) :=
  if dialed.isEmpty then .error "no dialed numbers found"
  else
    let inferred : Except String (List Char) :=
      match pfx? with
      | some p => .ok p
      | none =>
        match infer_pattern_from_numbers dialed with
        | some p => .ok p
        | none => .error "could not infer pattern"
    match inferred with
    | .error e => .error e
    | .ok pfx =>
      match calculate_remaining_numbers pfx dialed with
      | .error e => .error e
      | .ok remaining =>
        .ok (pfx, remaining, remaining.length + dialed.length, dialed.length)

/-! ## audio_analysis.py -/

/-- The tone categories of `classify_tone`. -/
inductive ToneType where
  | modem
  | fax
  | voice
  | unknown
deriving DecidableEq, Repr

/-- Embeds `np.std(v) > 300` exactly over ℚ: the population variance
(mean squared deviation, `ddof=0`, as `np.std` uses) exceeds `300²`.
For real arithmetic `std > 300 ↔ variance > 90000`, so this avoids the
square root while deciding the same comparison. -/
def stdExceeds300 (v : List ℚ) : Bool :=
  let n : ℚ := v.length
  if v.length = 0 then false
  else
    let mean := v.sum / n
    decide ((v.map (fun x => (x - mean) ^ 2)).sum / n > 90000)

/-- The voice / unknown tail of `classify_tone`, reached when none of the
frequency-band rules matched: at least 3 peaks in 300–3400 Hz whose first
5 have standard deviation above 300 Hz give voice at 0.75; a primary in
300–3400 Hz gives voice at 0.6; otherwise unknown at 0.0. -/
def voiceCheck (primary_freq : ℚ) (all_freqs : List ℚ) : ToneType × ℚ :=
  let voice_range_freqs := all_freqs.filter (fun f => 300 ≤ f ∧ f ≤ 3400)
  if 3 ≤ voice_range_freqs.length ∧ stdExceeds300 (voice_range_freqs.take 5) then
    (.voice, 3/4)
  else if 300 ≤ primary_freq ∧ primary_freq ≤ 3400 then (.voice, 3/5)
  else (.unknown, 0)

/-- Embeds `classify_tone` (`all_mags` is unused by the source body and
omitted).  Band constants: CNG 1100, CED 2100, V.22 originate 1200, V.22
answer 2400, modem range 1650–2400, tolerance 50.  The nested
`if MODEM_RANGE[0] <= f <= MODEM_RANGE[1]: if abs(f - 2100) > 50:` of the
source falls through to the voice checks when either test fails, which
the single conjunctive condition below reproduces. -/
def classify_tone (primary_freq : ℚ) (all_freqs : List ℚ) : ToneType × ℚ :=
  if |primary_freq - 1100| < 50 then
    (.fax, max (1 - |primary_freq - 1100| / 50) (7/10))
  else if |primary_freq - 2100| < 50 then
    if all_freqs.any (fun f => decide (|f - 1100| < 50)) then (.fax, 9/10)
    else (.modem, 3/4)
  else if |primary_freq - 1200| < 50 then
    (.modem, max (1 - |primary_freq - 1200| / 50) (7/10))
  else if |primary_freq - 2400| < 50 then
    (.modem, max (1 - |primary_freq - 2400| / 50) (7/10))
  else if 1650 ≤ primary_freq ∧ primary_freq ≤ 2400 ∧ |primary_freq - 2100| > 50 then
    (.modem, max (1 - |primary_freq - (1650 + 2400) / 2| / ((2400 - 1650) / 2) * (3/10))
      (7/10))
  else voiceCheck primary_freq all_freqs

/-- The result dictionary of `analyze_recording` (`all_peaks` of the
success dictionary is carried in `peaks`; the failure dictionaries do not
set it, embedded as the empty list). -/
structure AnalysisResult where
  tone_type : ToneType
  peak_frequency : Option ℚ
  confidence : ℚ
  peaks : List (ℚ × ℚ)
  error : Option String
deriving DecidableEq, Repr

/-- Embeds the stereo-to-mono step of `analyze_recording`:
`audio.mean(axis=1)` averages the channels of each frame. -/
def downmixStereo (frames : List (ℚ × ℚ)) : List ℚ :=
  frames.map (fun fr => (fr.1 + fr.2) / 2)

/-- The maximum of a sample buffer, as `numpy.ndarray.max` computes it
for a non-empty array (0 for the empty buffer, which numpy rejects and
the claims never exercise). -/
def sampleMax : List ℚ → ℚ
  | [] => 0
  | x :: xs => xs.foldl max x

/-- Embeds the normalization step of `analyze_recording`:
`if audio.max() > 0: audio = audio / audio.max()`.  Note the source
divides by the signed maximum, not by the maximum absolute value. -/
def normalizeIngest (samples : List ℚ) : List ℚ :=
  if 0 < sampleMax samples then samples.map (fun x => x / sampleMax samples)
  else samples

/-- Embeds `analyze_recording`.  The download (`requests.get` +
`raise_for_status`) and the decode (`wavfile.read`) are I/O and are
passed as `Except` outcomes; `fft_analysis` stands for
`perform_fft_analysis` on the normalized mono samples.  Both `except`
clauses of the source map any failure to the unknown/0.0 dictionary with
the stringified exception as `error`, which the `.error` branch
reproduces; no exception escapes. -/
def analyze_recording {Bytes : Type}
    (download : Except String Bytes)
    (decode : Bytes → Except String (Nat × List ℚ))
    (fft_analysis : List ℚ → Nat → AnalysisResult) : AnalysisResult :=
  match download with
  | .error e => ⟨.unknown, none, 0, [], some e⟩
  | .ok content =>
    match decode content with
    | .error e => ⟨.unknown, none, 0, [], some e⟩
    | .ok (sample_rate, samples) =>
      fft_analysis (normalizeIngest samples) sample_rate

/-! ## backends/voip.py: the shutdown wait over pending analyses. -/

/-- Abstract outcome of one pending analysis job: it completes after some
delay, fails (its future raises) after some delay, or never finishes. -/
inductive JobOutcome where
  | completed (delay : ℚ) (result : AnalysisResult)
  | failed (delay : ℚ) (msg : String)
  | stuck
deriving Repr

/-- Embeds `future.result(timeout=timeout)` inside the try/except of the
wait loop: the call blocks until the job finishes or the timeout elapses,
and the `except Exception` clause swallows a timeout or a failed job, so
each iteration contributes only its elapsed wall-clock wait, never an
exception. -/
def waitOne (timeout : ℚ) : JobOutcome → ℚ
  | .completed d _ => min d timeout
  | .failed d _ => min d timeout
  | .stuck => timeout

/-- The only state `_wait_for_pending_analyses` touches: the
`call_sid → future` map, each future abstracted by its outcome. -/
structure VoIPState where
  pending_analyses : List (String × JobOutcome)

/-- Embeds `VoIPBackend._wait_for_pending_analyses(timeout)`: return at
once when nothing is pending; otherwise wait (timeout-bounded, exceptions
swallowed) for each pending future in turn and clear the map.  The first
component is the total elapsed wall-clock wait. -/
def wait_for_pending_analyses (timeout : ℚ) (st : VoIPState) : ℚ × VoIPState :=
  if st.pending_analyses.isEmpty then (0, st)
  else
    ((st.pending_analyses.map (fun kv => waitOne timeout kv.2)).sum,
      { pending_analyses := [] })

/-! ## Basic facts about digits and `natDigitsFixed` -/

theorem digitChar_isDigit {v : Nat} (h : v < 10) : (Nat.digitChar v).isDigit = true := by
  interval_cases v <;> decide

theorem digitChar_ne_dash {v : Nat} (h : v < 10) : Nat.digitChar v ≠ '-' := by
  interval_cases v <;> decide

theorem digitChar_injOn {a b : Nat} (ha : a < 10) (hb : b < 10)
    (h : Nat.digitChar a = Nat.digitChar b) : a = b := by
  interval_cases a <;> interval_cases b <;> simp_all <;> exact absurd h (by decide)

theorem isNanpLeadDigit_digitChar {v : Nat} (h : v < 10) :
    isNanpLeadDigit (Nat.digitChar v) = decide (2 ≤ v) := by
  interval_cases v <;> decide

theorem length_natDigitsFixed (d i : Nat) : (natDigitsFixed d i).length = d := by
  induction d generalizing i with
  | zero => rfl
  | succ d ih => simp [natDigitsFixed, ih]

theorem natDigitsFixed_all_isDigit (d i : Nat) :
    ∀ c ∈ natDigitsFixed d i, c.isDigit = true := by
  induction d generalizing i with
  | zero => simp [natDigitsFixed]
  | succ d ih =>
    intro c hc
    simp only [natDigitsFixed, List.mem_cons] at hc
    rcases hc with h | h
    · exact h ▸ digitChar_isDigit (Nat.mod_lt _ (by norm_num))
    · exact ih i c h

theorem mod_pow_succ_digit (i d : Nat) :
    i % 10 ^ (d + 1) = i % 10 ^ d + 10 ^ d * (i / 10 ^ d % 10) := by
  rw [pow_succ, Nat.mod_mul]

theorem natDigitsFixed_inj {d i j : Nat}
    (h : natDigitsFixed d i = natDigitsFixed d j) : i % 10 ^ d = j % 10 ^ d := by
  induction d generalizing i j with
  | zero => simp [Nat.mod_one]
  | succ d ih =>
    simp only [natDigitsFixed, List.cons.injEq] at h
    have h1 := digitChar_injOn (Nat.mod_lt _ (by norm_num))
      (Nat.mod_lt _ (by norm_num)) h.1
    have h2 := ih h.2
    rw [mod_pow_succ_digit, mod_pow_succ_digit, h1, h2]

/-- The head character of a `d+1`-digit fixed representation is the most
significant digit. -/
theorem natDigitsFixed_head (d i : Nat) :
    natDigitsFixed (d + 1) i = Nat.digitChar (i / 10 ^ d % 10) :: natDigitsFixed d i :=
  rfl

/-! ## Facts about `normalize_number`, `validate` and `format_number` on
all-digit strings -/

theorem normalize_of_digits {l : List Char} (h : ∀ c ∈ l, c.isDigit = true) :
    normalize_number l = l := by
  unfold normalize_number
  have hf : l.filter (fun c => c.isDigit || c == '+') = l :=
    List.filter_eq_self.mpr (fun a ha => by simp [h a ha])
  rw [hf]
  cases l with
  | nil => rfl
  | cons c t =>
    have hne : c ≠ '+' := fun hc => by
      have := h c (by simp)
      rw [hc] at this
      exact absurd this (by decide)
    simp only []
    split
    · next heq =>
      injection heq with h1 h2
      exact absurd h1 hne
    · rfl

theorem validate_of_digits_ten {l : List Char} (hd : ∀ c ∈ l, c.isDigit = true)
    (hl : l.length = 10) : validate l = validate_usa_nanp l := by
  unfold validate
  rw [normalize_of_digits hd]
  have hcc : ¬ (l.take 1 = ['1'] ∧ l.length = 11) := by
    rintro ⟨-, h11⟩; omega
  simp [hcc, hl]

theorem format_of_digits_ten {l : List Char} (hd : ∀ c ∈ l, c.isDigit = true)
    (hl : l.length = 10) (hv : validate l = true) :
    format_number l = some (dashFormat l) := by
  unfold format_number
  rw [normalize_of_digits hd]
  have hcc : ¬ (l.take 1 = ['1'] ∧ l.length = 11) := by
    rintro ⟨-, h11⟩; omega
  simp [hv, hcc]

/-- Removing the dashes that `dashFormat` inserts recovers the digits. -/
theorem undash_dashFormat {l : List Char} (hd : ∀ c ∈ l, c.isDigit = true)
    (hl : l.length = 10) :
    (dashFormat l).filter (fun c => c ≠ '-') = l := by
  unfold dashFormat
  have hmem : ∀ {s : List Char}, (∀ c ∈ s, c ∈ l) →
      s.filter (fun c => c ≠ '-') = s := by
    intro s hs
    refine List.filter_eq_self.mpr (fun a ha => ?_)
    have := hd a (hs a ha)
    simp only [decide_eq_true_eq]
    intro hdash
    rw [hdash] at this
    exact absurd this (by decide)
  have hdash : ¬ ((fun c => decide (c ≠ '-')) '-' = true) := by decide
  rw [List.filter_append, hmem (fun c hc => List.mem_of_mem_take hc),
    List.filter_cons_of_neg (p := fun c => decide (c ≠ '-')) hdash,
    List.filter_append,
    hmem (fun c hc => List.mem_of_mem_drop (List.mem_of_mem_take hc)),
    List.filter_cons_of_neg (p := fun c => decide (c ≠ '-')) hdash,
    hmem (fun c hc => List.mem_of_mem_drop (List.mem_of_mem_take hc))]
  have h64 : (l.drop 6).take 4 = l.drop 6 :=
    List.take_of_length_le (by simp [hl])
  have h36 : (l.drop 3).take 3 ++ (l.drop 3).drop 3 = l.drop 3 :=
    List.take_append_drop 3 (l.drop 3)
  rw [h64, show l.drop 6 = (l.drop 3).drop 3 by rw [List.drop_drop], h36,
    List.take_append_drop]

/-! ## Generic list lemmas for the generation loop -/

theorem filterMap_if {α β : Type} {l : List α} {f : α → Option β} {q : α → Bool}
    {g : α → β} (hf : ∀ a ∈ l, f a = if q a then some (g a) else none) :
    l.filterMap f = (l.filter q).map g := by
  induction l with
  | nil => rfl
  | cons a t ih =>
    have ha := hf a (by simp)
    have ht : ∀ b ∈ t, f b = if q b then some (g b) else none :=
      fun b hb => hf b (by simp [hb])
    by_cases hq : q a = true
    · rw [List.filterMap_cons, ha, if_pos hq, List.filter_cons_of_pos hq,
        List.map_cons, ih ht]
    · rw [List.filterMap_cons, ha, if_neg hq,
        List.filter_cons_of_neg hq, ih ht]

theorem length_filter_not {α : Type} (l : List α) (p : α → Bool) :
    (l.filter (fun a => ! p a)).length = l.length - (l.filter p).length := by
  induction l with
  | nil => rfl
  | cons a t ih =>
    by_cases h : p a = true
    · rw [List.filter_cons_of_neg (by simp [h]), List.filter_cons_of_pos h]
      have := List.length_filter_le p t
      simp only [List.length_cons]
      omega
    · rw [List.filter_cons_of_pos (by simp [h]),
        List.filter_cons_of_neg (by simp [h])]
      have := List.length_filter_le p t
      simp only [List.length_cons]
      omega

theorem length_filter_range_ge (n k : Nat) :
    ((List.range n).filter (fun i => decide (k ≤ i))).length = n - k := by
  induction n with
  | zero => simp
  | succ n ih =>
    rw [List.range_succ, List.filter_append]
    by_cases h : k ≤ n
    · rw [List.filter_cons_of_pos (by simp [h])]
      simp only [List.length_append, ih, List.filter_nil, List.length_cons,
        List.length_nil]
      omega
    · rw [List.filter_cons_of_neg (by simp [h])]
      simp only [List.length_append, ih, List.filter_nil, List.length_nil]
      omega

/-! ## Structure of `validate_pattern`, `generate_numbers` and their
interplay -/

/-- A pattern accepted by `validate_pattern` normalizes to an all-digit
string: either the digits checked directly, or the country digit `1`
followed by them. -/
theorem clean_all_digits {p : List Char} (h : validate_pattern p = true) :
    ∀ c ∈ normalize_number p, c.isDigit = true := by
  unfold validate_pattern at h
  set clean := normalize_number p with hclean
  by_cases hcc : clean.take 1 = ['1'] ∧ 11 ≤ clean.length
  · simp only [hcc, and_self, if_true, if_pos] at h
    split_ifs at h with h1
    have hall : ∀ c ∈ clean.drop 1, c.isDigit = true := by
      intro c hc
      have := (Bool.and_eq_true _ _).mp h
      have h2 := (List.all_eq_true).mp this.1
      exact h2 c hc
    intro c hc
    rw [← List.take_append_drop 1 clean, hcc.1] at hc
    rcases List.mem_append.mp hc with h' | h'
    · simp at h'
      rw [h']; decide
    · exact hall c h'
  · simp only [hcc, if_false, if_neg] at h
    split_ifs at h with h1
    intro c hc
    have := (Bool.and_eq_true _ _).mp h
    exact (List.all_eq_true).mp this.1 c hc

/-- The facts `validate_pattern` guarantees about the cleaned pattern
when it is shorter than 10 digits (so no country code was stripped). -/
theorem pattern_facts {p : List Char} (h : validate_pattern p = true)
    (hlen : (normalize_number p).length < 11) :
    3 ≤ (normalize_number p).length ∧
    isNanpLeadDigit (((normalize_number p).take 3).headD ' ') = true ∧
    ((normalize_number p).take 3).drop 1 ≠ ['1', '1'] ∧
    (6 ≤ (normalize_number p).length →
      isNanpLeadDigit ((((normalize_number p).drop 3).take 3).headD ' ') = true) := by
  have hcc : ¬ ((normalize_number p).take 1 = ['1'] ∧
      11 ≤ (normalize_number p).length) := by
    rintro ⟨-, h11⟩; omega
  unfold validate_pattern at h
  simp only [hcc, if_false, if_neg] at h
  split_ifs at h with h1 h2 h3 h4
  refine ⟨by omega, by simpa using h2, h3, fun h6 => ?_⟩
  by_contra hno
  exact h4 ⟨h6, hno⟩

/-- With an all-digit clean pattern completing to 10 digits, one loop
iteration reduces to the NANP check plus dash formatting. -/
theorem candidate_eq {clean : List Char} {d : Nat}
    (hall : ∀ c ∈ clean, c.isDigit = true) (hlen : clean.length + d = 10) (i : Nat) :
    candidate clean d i =
      if validate_usa_nanp (clean ++ natDigitsFixed d i) = true
      then some (dashFormat (clean ++ natDigitsFixed d i)) else none := by
  have hfd : ∀ c ∈ clean ++ natDigitsFixed d i, c.isDigit = true := by
    intro c hc
    rcases List.mem_append.mp hc with h' | h'
    · exact hall c h'
    · exact natDigitsFixed_all_isDigit d i c h'
  have hfl : (clean ++ natDigitsFixed d i).length = 10 := by
    simp [length_natDigitsFixed]; omega
  unfold candidate
  by_cases hv : validate_usa_nanp (clean ++ natDigitsFixed d i) = true
  · rw [if_pos (by rw [validate_of_digits_ten hfd hfl]; exact hv), if_pos hv,
      format_of_digits_ten hfd hfl (by rw [validate_of_digits_ten hfd hfl]; exact hv)]
  · rw [if_neg (by rw [validate_of_digits_ten hfd hfl]; exact hv), if_neg hv]

/-- When the cleaned pattern is shorter than 10 digits,
`generate_numbers` is the filter-validate-format loop. -/
theorem generate_numbers_loop {p : List Char} (hp : validate_pattern p = true)
    (hlen : (normalize_number p).length < 10) :
    generate_numbers p =
      .ok ((List.range (10 ^ (10 - (normalize_number p).length))).filterMap
        (candidate (normalize_number p) (10 - (normalize_number p).length))) := by
  unfold generate_numbers
  rw [if_neg (by simp [hp])]
  simp only
  rw [if_neg (by omega)]

theorem bool_eq_decide {b : Bool} {P : Prop} [Decidable P] (h : b = true ↔ P) :
    b = decide P := by
  by_cases hP : P <;> simp [hP] at h ⊢ <;> exact h

/-- Characterization of the NANP validity check as a conjunction of its
four conditions. -/
theorem validate_usa_nanp_iff {digits : List Char} :
    validate_usa_nanp digits = true ↔
      digits.length = 10 ∧
      isNanpLeadDigit ((digits.take 3).headD ' ') = true ∧
      (digits.take 3).drop 1 ≠ ['1', '1'] ∧
      isNanpLeadDigit (((digits.drop 3).take 3).headD ' ') = true ∧
      ∀ c ∈ digits, c.isDigit = true := by
  unfold validate_usa_nanp
  constructor
  · intro h
    simp only [] at h
    split_ifs at h with h1 h2 h3 h4
    exact ⟨by omega, by simpa using h2, h3, by simpa using h4,
      (List.all_eq_true).mp h⟩
  · rintro ⟨hl, h2, h3, h4, hall⟩
    simp only []
    rw [if_neg (by omega), if_neg (not_not_intro h2), if_neg h3,
      if_neg (not_not_intro h4)]
    exact List.all_eq_true.mpr hall

/-- A string that `validate` accepts is formatted from a 10-digit NANP
block (possibly after stripping the country digit). -/
theorem validate_true_struct {l : List Char} (hall : ∀ c ∈ l, c.isDigit = true)
    (hv : validate l = true) :
    ∃ digits, (∀ c ∈ digits, c.isDigit = true) ∧ digits.length = 10 ∧
      validate_usa_nanp digits = true ∧ format_number l = some (dashFormat digits) := by
  have hfmt : format_number l =
      some (dashFormat (if l.take 1 = ['1'] ∧ l.length = 11 then l.drop 1 else l)) := by
    unfold format_number
    rw [if_neg (by simp [hv])]
    simp only [normalize_of_digits hall]
  unfold validate at hv
  simp only [normalize_of_digits hall] at hv
  by_cases hcc : l.take 1 = ['1'] ∧ l.length = 11
  · rw [if_pos hcc] at hv
    split_ifs at hv with h1 h2
    refine ⟨l.drop 1, fun c hc => hall c (List.mem_of_mem_drop hc), ?_, hv, ?_⟩
    · simp [hcc.2]
    · rw [hfmt, if_pos hcc]
  · rw [if_neg hcc] at hv
    split_ifs at hv with h1 h2
    refine ⟨l, hall, by omega, hv, ?_⟩
    rw [hfmt, if_neg hcc]

/-- Every string in a successfully generated list is the dash-format of a
10-digit block accepted by the NANP rules. -/
theorem generate_mem {p : List Char} {all : List (List Char)} {n : List Char}
    (h : generate_numbers p = .ok all) (hn : n ∈ all) :
    ∃ digits, (∀ c ∈ digits, c.isDigit = true) ∧ digits.length = 10 ∧
      validate_usa_nanp digits = true ∧ n = dashFormat digits := by
  by_cases hp : validate_pattern p = true
  · have hall := clean_all_digits hp
    by_cases hlen : 10 ≤ (normalize_number p).length
    · unfold generate_numbers at h
      rw [if_neg (by simp [hp])] at h
      simp only [] at h
      rw [if_pos hlen] at h
      by_cases hv : validate (normalize_number p) = true
      · obtain ⟨digits, hd1, hd2, hd3, hd4⟩ := validate_true_struct hall hv
        rw [if_neg (by simp [hv]), hd4] at h
        rcases h with h
        injection h with h
        rw [← h] at hn
        rcases List.mem_singleton.mp hn with rfl
        exact ⟨digits, hd1, hd2, hd3, rfl⟩
      · rw [if_pos (by simp [hv])] at h
        cases h
    · push_neg at hlen
      rw [generate_numbers_loop hp hlen] at h
      injection h with h
      rw [← h] at hn
      obtain ⟨i, hi, hci⟩ := List.mem_filterMap.mp hn
      rw [candidate_eq hall (by omega) i] at hci
      split_ifs at hci with hval
      injection hci with hci
      exact ⟨normalize_number p ++
        natDigitsFixed (10 - (normalize_number p).length) i,
        fun c hc => (List.mem_append.mp hc).elim (hall c)
          (natDigitsFixed_all_isDigit _ i c),
        by simp only [List.length_append, length_natDigitsFixed]; omega,
        hval, hci.symm⟩
  · unfold generate_numbers at h
    rw [if_pos (by simp [hp])] at h
    cases h

/-- A 10-character list destructures into its ten characters. -/
theorem exists_ten {l : List Char} (hl : l.length = 10) :
    ∃ c0 c1 c2 c3 c4 c5 c6 c7 c8 c9,
      l = [c0, c1, c2, c3, c4, c5, c6, c7, c8, c9] := by
  rcases l with - | ⟨c0, - | ⟨c1, - | ⟨c2, - | ⟨c3, - | ⟨c4, - | ⟨c5, - |
    ⟨c6, - | ⟨c7, - | ⟨c8, - | ⟨c9, - | ⟨c10, t⟩⟩⟩⟩⟩⟩⟩⟩⟩⟩⟩ <;>
    simp only [List.length_cons, List.length_nil] at hl <;> try omega
  exact ⟨c0, c1, c2, c3, c4, c5, c6, c7, c8, c9, rfl⟩

/-- The area-code slice of a dash-formatted number. -/
theorem dashFormat_take3 {digits : List Char} (hl : digits.length = 10) :
    (dashFormat digits).take 3 = digits.take 3 := by
  obtain ⟨c0, c1, c2, c3, c4, c5, c6, c7, c8, c9, rfl⟩ := exists_ten hl
  rfl

/-- The exchange-code slice of a dash-formatted number. -/
theorem dashFormat_drop4_take3 {digits : List Char} (hl : digits.length = 10) :
    ((dashFormat digits).drop 4).take 3 = (digits.drop 3).take 3 := by
  obtain ⟨c0, c1, c2, c3, c4, c5, c6, c7, c8, c9, rfl⟩ := exists_ten hl
  rfl

/-- A generated list never repeats a number. -/
theorem generate_numbers_nodup {p : List Char} {all : List (List Char)}
    (h : generate_numbers p = .ok all) : all.Nodup := by
  by_cases hp : validate_pattern p = true
  · have hall := clean_all_digits hp
    by_cases hlen : 10 ≤ (normalize_number p).length
    · unfold generate_numbers at h
      rw [if_neg (by simp [hp])] at h
      simp only [] at h
      rw [if_pos hlen] at h
      by_cases hv : validate (normalize_number p) = true
      · rw [if_neg (by simp [hv])] at h
        rcases hfmt : format_number (normalize_number p) with - | f <;> rw [hfmt] at h <;>
          injection h with h <;> rw [← h] <;> simp
      · rw [if_pos (by simp [hv])] at h
        cases h
    · push_neg at hlen
      rw [generate_numbers_loop hp hlen] at h
      injection h with h
      rw [← h]
      set clean := normalize_number p
      set d := 10 - clean.length with hd
      rw [filterMap_if (fun i _ => candidate_eq hall (by omega) i)]
      refine List.Nodup.map_on ?_ ((List.nodup_range _).filter _)
      intro i hi j hj hgij
      have hmi := List.mem_range.mp (List.mem_filter.mp hi).1
      have hmj := List.mem_range.mp (List.mem_filter.mp hj).1
      have hvi := (List.mem_filter.mp hi).2
      have hdigits : ∀ k : Nat, ∀ c ∈ clean ++ natDigitsFixed d k, c.isDigit = true :=
        fun k c hc => (List.mem_append.mp hc).elim (hall c)
          (natDigitsFixed_all_isDigit d k c)
      have hlen10 : ∀ k : Nat, (clean ++ natDigitsFixed d k).length = 10 :=
        fun k => by simp [length_natDigitsFixed]; omega
      have hfull : clean ++ natDigitsFixed d i = clean ++ natDigitsFixed d j := by
        have hh := congrArg (List.filter (fun c => decide (c ≠ '-'))) hgij
        rwa [undash_dashFormat (hdigits i) (hlen10 i),
          undash_dashFormat (hdigits j) (hlen10 j)] at hh
      have := natDigitsFixed_inj (List.append_cancel_left hfull)
      rw [Nat.mod_eq_of_lt hmi, Nat.mod_eq_of_lt hmj] at this
      exact this
  · unfold generate_numbers at h
    rw [if_pos (by simp [hp])] at h
    cases h

/-- Filtering a duplicate-free list down to the members of a
duplicate-free sublist keeps exactly that sublist's length. -/
theorem length_filter_mem {all d : List (List Char)} (hna : all.Nodup)
    (hnd : d.Nodup) (hsub : ∀ x ∈ d, x ∈ all) :
    (all.filter (fun a => decide (a ∈ d))).length = d.length := by
  refine List.Perm.length_eq ?_
  rw [List.perm_ext_iff_of_nodup (hna.filter _) hnd]
  intro a
  simp only [List.mem_filter, decide_eq_true_eq]
  exact ⟨fun ha => ha.2, fun ha => ⟨hsub a ha, ha⟩⟩

/-! ## Claim theorems -/

/-- C1: for every prefix `p`, every dialed set and `randomize=false`,
`calculate_remaining` equals `generate_range(p)` with every member of the
dialed set removed, preserving generation order; the result is disjoint
from the dialed set, is a subset of the full generated range, contains no
duplicates, and its length is `len(full_range) - len(full_range ∩
dialed)`.  In particular for dialed
`{555-234-5600, 555-234-5601, 555-234-5602}` and prefix `555-234-56` it
has length exactly 97, excludes the three dialed numbers, and includes
`555-234-5603` and `555-234-5699`. -/
theorem calculate_remaining_spec (p : List Char) (dialed : List (List Char))
    (all : List (List Char)) (h : generate_numbers p = .ok all) :
    calculate_remaining_numbers p dialed =
      .ok (all.filter (fun num => decide (num ∉ dialed))) ∧
    (∀ n ∈ all.filter (fun num => decide (num ∉ dialed)), n ∉ dialed) ∧
    (∀ n ∈ all.filter (fun num => decide (num ∉ dialed)), n ∈ all) ∧
    (all.filter (fun num => decide (num ∉ dialed))).Nodup ∧
    (all.filter (fun num => decide (num ∉ dialed))).length =
      all.length - (all.filter (fun num => decide (num ∈ dialed))).length ∧
    (calculate_remaining_numbers (s2l "555-234-56")
        [s2l "555-234-5600", s2l "555-234-5601", s2l "555-234-5602"]).map
      (fun rem => decide (rem.length = 97 ∧ s2l "555-234-5600" ∉ rem ∧
        s2l "555-234-5601" ∉ rem ∧ s2l "555-234-5602" ∉ rem ∧
        s2l "555-234-5603" ∈ rem ∧ s2l "555-234-5699" ∈ rem)) = .ok true := by
  refine ⟨?_, ?_, ?_, ?_, ?_, ?_⟩
  · unfold calculate_remaining_numbers
    rw [h]
    rfl
  · intro n hn
    simpa using (List.mem_filter.mp hn).2
  · intro n hn
    exact (List.mem_filter.mp hn).1
  · exact (generate_numbers_nodup h).filter _
  · have hgen := length_filter_not all (fun num => decide (num ∈ dialed))
    simpa only [decide_not] using hgen
  · rfl

/-- Witness for C1 at the concrete full-length prefix `555-234-5678` with
an empty dialed set. -/
theorem calculate_remaining_spec_witness :
    calculate_remaining_numbers (s2l "555-234-5678") ([] : List (List Char)) =
      .ok ([s2l "555-234-5678"].filter
        (fun num => decide (num ∉ ([] : List (List Char))))) :=
  (calculate_remaining_spec (s2l "555-234-5678") [] [s2l "555-234-5678"]
    (by rfl)).1

/-- C6 (amended): every number generated under NANP rules has an area
code and an exchange code starting with a digit 2-9, and the area code is
not an N11 service code.  The exchange code, however, is never checked
against N11 by `validate_usa_nanp`, so exchange codes 211..911 do appear
in generated ranges (see the counterexample). -/
theorem generate_numbers_nanp_spec (p : List Char) (all : List (List Char))
    (n : List Char) (h : generate_numbers p = .ok all) (hn : n ∈ all) :
    isNanpLeadDigit ((n.take 3).headD ' ') = true ∧
    (n.take 3).drop 1 ≠ ['1', '1'] ∧
    isNanpLeadDigit (((n.drop 4).take 3).headD ' ') = true := by
  obtain ⟨digits, hd1, hd2, hd3, rfl⟩ := generate_mem h hn
  obtain ⟨hl, ha, h11, hx, -⟩ := validate_usa_nanp_iff.mp hd3
  rw [dashFormat_take3 hd2, dashFormat_drop4_take3 hd2]
  exact ⟨ha, h11, hx⟩

/-- Witness for C6 at the generated number `555-234-5678`. -/
theorem generate_numbers_nanp_spec_witness :
    isNanpLeadDigit (((s2l "555-234-5678").take 3).headD ' ') = true ∧
    ((s2l "555-234-5678").take 3).drop 1 ≠ ['1', '1'] ∧
    isNanpLeadDigit ((((s2l "555-234-5678").drop 4).take 3).headD ' ') = true :=
  generate_numbers_nanp_spec (s2l "555-234-5678") [s2l "555-234-5678"]
    (s2l "555-234-5678") (by rfl) (by simp)

/-- C6 counterexample: the N11 exchange code 211 is never filtered out:
the full number `555-211-0000` validates and is generated, and the same
number (with exchange `211`) is a member of the range generated from the
bare area code `555`. -/
theorem generate_numbers_n11_exchange_cex :
    generate_numbers (s2l "555-211-0000") = .ok [s2l "555-211-0000"] ∧
    ((s2l "555-211-0000").drop 4).take 3 = s2l "211" ∧
    ∃ all, generate_numbers (s2l "555") = .ok all ∧ s2l "555-211-0000" ∈ all := by
  refine ⟨by rfl, by rfl, ?_⟩
  have hp : validate_pattern (s2l "555") = true := by rfl
  have hlen : (normalize_number (s2l "555")).length < 10 := by decide
  refine ⟨_, generate_numbers_loop hp hlen, ?_⟩
  apply List.mem_filterMap.mpr
  exact ⟨2110000, List.mem_range.mpr (by decide), by rfl⟩

theorem headD_take_left {A : List Char} (h : A ≠ []) (n : Nat) (x : Char) :
    (A.take (n + 1)).headD x = A.headD x := by
  cases A with
  | nil => exact absurd rfl h
  | cons a t => rfl

theorem headD_take_append_left {A B : List Char} (h : A ≠ []) (n : Nat) (x : Char) :
    ((A ++ B).take (n + 1)).headD x = A.headD x := by
  cases A with
  | nil => exact absurd rfl h
  | cons a t => rfl

/-- Inside the generation loop, validity reduces to the exchange leading
digit: the area-code conditions are inherited from the validated pattern
and every character is a digit. -/
theorem loop_valid_iff {p : List Char} (hp : validate_pattern p = true)
    (hlt : (normalize_number p).length < 10) (i : Nat) :
    validate_usa_nanp (normalize_number p ++
        natDigitsFixed (10 - (normalize_number p).length) i) = true ↔
      isNanpLeadDigit ((((normalize_number p ++
          natDigitsFixed (10 - (normalize_number p).length) i).drop 3).take 3).headD
        ' ') = true := by
  have hall := clean_all_digits hp
  obtain ⟨h3, harea, h11, -⟩ := pattern_facts hp (by omega)
  have hlen10 : (normalize_number p ++
      natDigitsFixed (10 - (normalize_number p).length) i).length = 10 := by
    simp only [List.length_append, length_natDigitsFixed]; omega
  constructor
  · intro hv
    exact (validate_usa_nanp_iff.mp hv).2.2.2.1
  · intro hx
    apply validate_usa_nanp_iff.mpr
    refine ⟨hlen10, ?_, ?_, hx, ?_⟩
    · rw [List.take_append_of_le_length (by omega)]
      exact harea
    · rw [List.take_append_of_le_length (by omega)]
      exact h11
    · intro c hc
      exact (List.mem_append.mp hc).elim (hall c) (natDigitsFixed_all_isDigit _ _ c)

/-- For patterns with at least an area code and one exchange digit, the
exchange leading digit of every loop candidate is the pattern's own. -/
theorem loop_exchange_head_ge4 {p : List Char}
    (h4 : 4 ≤ (normalize_number p).length)
    (hlt : (normalize_number p).length < 10) (i : Nat) :
    (((normalize_number p ++
        natDigitsFixed (10 - (normalize_number p).length) i).drop 3).take 3).headD
      ' ' = (((normalize_number p).drop 3).take 3).headD ' ' := by
  rw [List.drop_append_of_le_length (by omega)]
  have hne : (normalize_number p).drop 3 ≠ [] := by
    intro hnil
    have := congrArg List.length hnil
    simp only [List.length_drop, List.length_nil] at this
    omega
  rw [show (3 : Nat) = 2 + 1 from rfl, headD_take_append_left hne,
    headD_take_left hne]

/-- For a bare area-code pattern, the exchange leading digit of loop
candidate `i` is the leading digit of the 7-digit zero-padded suffix. -/
theorem loop_exchange_head_eq3 {p : List Char}
    (h3 : (normalize_number p).length = 3) (i : Nat) :
    (((normalize_number p ++
        natDigitsFixed (10 - (normalize_number p).length) i).drop 3).take 3).headD
      ' ' = Nat.digitChar (i / 10 ^ 6 % 10) := by
  rw [List.drop_append_of_le_length (by omega),
    List.drop_of_length_le (by omega), List.nil_append, h3]
  rfl

/-- C10 (amended): the closed-form `count_numbers` agrees with the length
of the enumerate-then-filter `generate_numbers` list for every accepted
pattern of at most 10 digits whose fourth digit (the exchange leading
digit), when present, is 2-9.  Patterns of length 4 or 5 whose fourth
digit is 0 or 1 are accepted by `validate_pattern` but break the
agreement (see the counterexample). -/
theorem count_matches_generate (p : List Char)
    (hp : validate_pattern p = true)
    (hle : (normalize_number p).length ≤ 10)
    (h4 : 4 ≤ (normalize_number p).length →
      isNanpLeadDigit ((((normalize_number p).drop 3).take 3).headD ' ') = true) :
    ∃ all, generate_numbers p = .ok all ∧ count_numbers p = .ok all.length := by
  have hall := clean_all_digits hp
  obtain ⟨h3, harea, h11, hx6⟩ := pattern_facts hp (by omega)
  by_cases h10 : (normalize_number p).length = 10
  · have hv : validate (normalize_number p) = true := by
      rw [validate_of_digits_ten hall h10]
      exact validate_usa_nanp_iff.mpr ⟨h10, harea, h11, hx6 (by omega), hall⟩
    have hfmt := format_of_digits_ten hall h10 hv
    refine ⟨[dashFormat (normalize_number p)], ?_, ?_⟩
    · unfold generate_numbers
      rw [if_neg (by simp [hp])]
      simp only []
      rw [if_pos (by omega), if_neg (by simp [hv]), hfmt]
    · unfold count_numbers
      rw [if_neg (by simp [hp])]
      simp only []
      rw [if_pos (by omega)]
      rfl
  · have hlt : (normalize_number p).length < 10 := by omega
    have hgen := generate_numbers_loop hp hlt
    rw [filterMap_if (fun i _ => candidate_eq hall (by omega) i)] at hgen
    refine ⟨_, hgen, ?_⟩
    rw [List.length_map]
    unfold count_numbers
    rw [if_neg (by simp [hp])]
    simp only []
    rw [if_neg (by omega)]
    by_cases hc3 : (normalize_number p).length = 3
    · rw [if_pos hc3]
      have hq : ∀ i ∈ List.range (10 ^ (10 - (normalize_number p).length)),
          validate_usa_nanp (normalize_number p ++
            natDigitsFixed (10 - (normalize_number p).length) i)
            = decide (2000000 ≤ i) := by
        intro i hi
        have hi7 : i < 10 ^ 7 := by
          have hm := List.mem_range.mp hi
          rw [hc3] at hm
          norm_num at hm ⊢
          exact hm
        apply bool_eq_decide
        rw [loop_valid_iff hp hlt i, loop_exchange_head_eq3 hc3 i,
          isNanpLeadDigit_digitChar (Nat.mod_lt _ (by norm_num)),
          Nat.mod_eq_of_lt ((Nat.div_lt_iff_lt_mul (by norm_num)).mpr
            (by norm_num at hi7 ⊢; omega)),
          decide_eq_true_iff, Nat.le_div_iff_mul_le (by norm_num)]
        norm_num
      rw [List.filter_congr hq, length_filter_range_ge, hc3]
      norm_num
    · have h4' := h4 (by omega)
      have hq : ∀ i ∈ List.range (10 ^ (10 - (normalize_number p).length)),
          validate_usa_nanp (normalize_number p ++
            natDigitsFixed (10 - (normalize_number p).length) i) = true := by
        intro i hi
        rw [loop_valid_iff hp hlt i, loop_exchange_head_ge4 (by omega) hlt i]
        exact h4'
      rw [List.filter_eq_self.mpr hq, List.length_range]
      rw [if_neg hc3]
      by_cases hc4 : (normalize_number p).length = 4
      · rw [if_pos hc4, hc4]
      · rw [if_neg hc4]
        by_cases hc5 : (normalize_number p).length = 5
        · rw [if_pos hc5, hc5]
        · rw [if_neg hc5]

/-- Witness for C10 at the accepted 8-digit pattern `555-234-56`. -/
theorem count_matches_generate_witness :
    validate_pattern (s2l "555-234-56") = true ∧
    ∃ all, generate_numbers (s2l "555-234-56") = .ok all ∧
      count_numbers (s2l "555-234-56") = .ok all.length :=
  ⟨by rfl, count_matches_generate (s2l "555-234-56") (by rfl) (by decide)
    (fun _ => by decide)⟩

/-- C10 counterexample: the pattern `5550` passes `validate_pattern` (the
exchange digit is only checked from 6 digits on), `count_numbers` answers
`10^6`, but every candidate has exchange leading digit `0`, so
`generate_numbers` filters all of them out and returns the empty list. -/
theorem count_numbers_cex :
    count_numbers (s2l "5550") = .ok 1000000 ∧
    generate_numbers (s2l "5550") = .ok [] := by
  refine ⟨by rfl, ?_⟩
  have hp : validate_pattern (s2l "5550") = true := by rfl
  have hlt : (normalize_number (s2l "5550")).length < 10 := by decide
  have hnone : ∀ i ∈ List.range
      (10 ^ (10 - (normalize_number (s2l "5550")).length)),
      candidate (normalize_number (s2l "5550"))
        (10 - (normalize_number (s2l "5550")).length) i = none := by
    intro i hi
    rw [candidate_eq (clean_all_digits hp) (by decide) i]
    rw [if_neg ?_]
    intro hv
    have hx := (validate_usa_nanp_iff.mp hv).2.2.2.1
    have heq : (((normalize_number (s2l "5550") ++
        natDigitsFixed (10 - (normalize_number (s2l "5550")).length) i).drop
          3).take 3).headD ' ' = '0' := by
      rw [List.drop_append_of_le_length (by decide)]
      rfl
    rw [heq] at hx
    exact absurd hx (by decide)
  rewrite [generate_numbers_loop hp hlt]
  exact congrArg Except.ok (List.filterMap_eq_nil_iff.mpr hnone)

/-- C4 (amended): the third component (`total_count`) returned by
`prepare_resume` equals `len(remaining) + len(dialed)`; this equals the
size of the full generated range exactly when every dialed number is a
member of the range (dialed numbers outside the range inflate the total,
see the counterexample). -/
theorem prepare_resume_total_spec (dialed : List (List Char)) (pfx : List Char)
    (res : List Char × List (List Char) × Nat × Nat)
    (h : prepare_resume dialed (some pfx) = .ok res) :
    res.2.2.1 = res.2.1.length + dialed.length ∧
    ∀ all, generate_numbers pfx = .ok all → dialed.Nodup →
      (∀ x ∈ dialed, x ∈ all) → res.2.2.1 = all.length := by
  unfold prepare_resume at h
  by_cases hde : dialed.isEmpty
  · rw [if_pos hde] at h
    cases h
  · rw [if_neg hde] at h
    simp only [] at h
    rcases hcalc : calculate_remaining_numbers pfx dialed with e | remaining <;>
      rw [hcalc] at h
    · cases h
    · injection h with h
      subst h
      refine ⟨rfl, ?_⟩
      intro all hgen hnd hsub
      unfold calculate_remaining_numbers at hcalc
      rw [hgen] at hcalc
      injection hcalc with hcalc
      simp only []
      rw [← hcalc]
      have h1 := length_filter_not all (fun num => decide (num ∈ dialed))
      have h2 := length_filter_mem (generate_numbers_nodup hgen) hnd hsub
      have h3 := List.length_filter_le (fun num => decide (num ∈ dialed)) all
      simp only [decide_not] at h1 ⊢
      omega

/-- Witness for C4 with a single dialed number equal to the one number of
a full-length range. -/
theorem prepare_resume_total_spec_witness :
    ((s2l "555-234-5678", ([] : List (List Char)), 1, 1) :
        List Char × List (List Char) × Nat × Nat).2.2.1 =
      ([] : List (List Char)).length + [s2l "555-234-5678"].length :=
  (prepare_resume_total_spec [s2l "555-234-5678"] (s2l "555-234-5678")
    (s2l "555-234-5678", [], 1, 1) (by rfl)).1

/-- C4 counterexample: with dialed `{555-234-5600, 999-867-5309}` (the
second number outside the range of prefix `555-234-56`), `prepare_resume`
reports `total = 99 + 2 = 101`, but the full generated range has 100
members, so the third component is not the range size. -/
theorem prepare_resume_total_cex :
    (prepare_resume [s2l "555-234-5600", s2l "999-867-5309"]
        (some (s2l "555-234-56"))).map (fun r => r.2.2.1) = .ok 101 ∧
    (generate_numbers (s2l "555-234-56")).map List.length = .ok 100 :=
  ⟨by rfl, by rfl⟩

/-! ## C5: prefix inference -/

theorem filter_stripTrailingDash (l : List Char) :
    (stripTrailingDash l).filter (fun c => decide (c ≠ '-')) =
      l.filter (fun c => decide (c ≠ '-')) := by
  unfold stripTrailingDash
  by_cases hd : l.getLast? = some '-'
  · rw [if_pos hd]
    obtain ⟨ys, rfl⟩ := List.getLast?_eq_some_iff.mp hd
    rw [List.dropLast_concat, List.filter_append]
    simp
  · rw [if_neg hd]

theorem length_stripTrailingDash_le (l : List Char) :
    (stripTrailingDash l).length ≤ l.length := by
  unfold stripTrailingDash
  split
  · simp only [List.length_dropLast]
    omega
  · exact le_refl _

/-- Dropping the last `k` characters removes at most `k` non-dash
characters. -/
theorem length_filter_take_ge (l : List Char) (k : Nat) :
    (l.filter (fun c => decide (c ≠ '-'))).length ≤
      ((l.take (l.length - k)).filter (fun c => decide (c ≠ '-'))).length + k := by
  conv_lhs => rw [← List.take_append_drop (l.length - k) l]
  rw [List.filter_append, List.length_append]
  have h1 := List.length_filter_le (fun c => decide (c ≠ '-'))
    (l.drop (l.length - k))
  have h2 : (l.drop (l.length - k)).length ≤ k := by
    simp only [List.length_drop]
    omega
  omega

/-- C5 (amended): `infer_pattern_from_numbers` returns `none` on the
empty set; and whenever the common prefix of the sorted dialed numbers
has dash-free length exactly 7 — a full 7-digit local number, not the
10-digit full target length the claim states — the function returns that
prefix with its 2 trailing characters trimmed (a strictly shorter
string), never the untrimmed 7-digit number.  A 10-digit common prefix is
returned untrimmed (see the counterexample). -/
theorem infer_pattern_spec :
    infer_pattern_from_numbers [] = none ∧
    ∀ numbers, numbers ≠ [] →
      ((inferCommon numbers).filter (fun c => decide (c ≠ '-'))).length = 7 →
      infer_pattern_from_numbers numbers =
        some (stripTrailingDash (pyTrim (inferCommon numbers) 2)) ∧
      (stripTrailingDash (pyTrim (inferCommon numbers) 2)).length <
        (inferCommon numbers).length := by
  refine ⟨rfl, ?_⟩
  intro numbers hne h7
  have hlen7 : 7 ≤ (inferCommon numbers).length := by
    rw [← h7]
    exact List.length_filter_le _ _
  have htrim : pyTrim (inferCommon numbers) 2 =
      (inferCommon numbers).take ((inferCommon numbers).length - 2) := by
    unfold pyTrim
    rw [if_pos (by omega)]
  have hc : 2 ≤ ((stripTrailingDash (pyTrim (inferCommon numbers) 2)).filter
      (fun c => decide (c ≠ '-'))).length := by
    rw [filter_stripTrailingDash, htrim]
    have := length_filter_take_ge (inferCommon numbers) 2
    omega
  have ht2 : tryTrimCandidate (inferCommon numbers) 2 =
      some (stripTrailingDash (pyTrim (inferCommon numbers) 2)) := by
    unfold tryTrimCandidate
    simp only []
    rw [if_pos hc]
  constructor
  · unfold infer_pattern_from_numbers
    rw [if_neg (by simpa [List.isEmpty_iff] using hne)]
    simp only []
    rw [if_pos h7, ht2]
  · rw [htrim]
    have hs := length_stripTrailingDash_le
      ((inferCommon numbers).take ((inferCommon numbers).length - 2))
    have hlen : ((inferCommon numbers).take
        ((inferCommon numbers).length - 2)).length =
        (inferCommon numbers).length - 2 := by
      simp only [List.length_take]
      omega
    omega

/-- Witness for C5 at the single 7-digit number `555-1234`, trimmed to
`555-12`. -/
theorem infer_pattern_spec_witness :
    infer_pattern_from_numbers [s2l "555-1234"] =
      some (stripTrailingDash (pyTrim (inferCommon [s2l "555-1234"]) 2)) :=
  (infer_pattern_spec.2 [s2l "555-1234"] (by simp) (by rfl)).1

/-- C5 counterexample: for the singleton set `{555-234-5634}` the common
prefix has digit-length 10 — the full NANP target length — yet
`infer_pattern_from_numbers` returns the untrimmed full-length number:
the trimming branch fires only at digit-length 7. -/
theorem infer_full_length_cex :
    ((inferCommon [s2l "555-234-5634"]).filter
      (fun c => decide (c ≠ '-'))).length = 10 ∧
    infer_pattern_from_numbers [s2l "555-234-5634"] =
      some (s2l "555-234-5634") :=
  ⟨by rfl, by rfl⟩

/-! ## C2, C3: tone classifier -/

/-- C2: for every non-empty peak list whose primary (strongest, first)
frequency lies within the ±50 Hz band around 2100 Hz: with another peak
within ±50 Hz of 1100 Hz the classification is fax with confidence
exactly 0.9, otherwise modem with confidence exactly 0.75. -/
theorem classify_ced_dual_tone (p : ℚ) (rest : List ℚ) (h : |p - 2100| < 50) :
    ((∃ f ∈ rest, |f - 1100| < 50) →
      classify_tone p (p :: rest) = (.fax, 9/10)) ∧
    ((∀ f ∈ rest, ¬ (|f - 1100| < 50)) →
      classify_tone p (p :: rest) = (.modem, 3/4)) := by
  have habs := abs_lt.mp h
  have hn1100 : ¬ (|p - 1100| < 50) := by
    rw [abs_lt]
    push_neg
    intro h'
    linarith [habs.1]
  constructor
  · rintro ⟨f, hf, hf50⟩
    have hany : (p :: rest).any (fun f => decide (|f - 1100| < 50)) = true :=
      List.any_eq_true.mpr ⟨f, by simp [hf], by simpa using hf50⟩
    unfold classify_tone
    rw [if_neg hn1100, if_pos h, if_pos hany]
  · intro hall
    have hany : ¬ ((p :: rest).any (fun f => decide (|f - 1100| < 50)) = true) := by
      rw [List.any_eq_true]
      rintro ⟨f, hf, hdf⟩
      rcases List.mem_cons.mp hf with rfl | hfr
      · exact hn1100 (by simpa using hdf)
      · exact hall f hfr (by simpa using hdf)
    unfold classify_tone
    rw [if_neg hn1100, if_pos h, if_neg hany]

/-- Witness for C2: a 2100 Hz primary with a 1100 Hz companion is fax at
0.9, and alone it is modem at 0.75. -/
theorem classify_ced_dual_tone_witness :
    classify_tone 2100 [2100, 1100] = (.fax, 9/10) ∧
    classify_tone 2100 [2100] = (.modem, 3/4) :=
  ⟨(classify_ced_dual_tone 2100 [1100] (by norm_num)).1
      ⟨1100, by simp, by norm_num⟩,
    (classify_ced_dual_tone 2100 [] (by norm_num)).2 (by simp)⟩

/-- C3 (amended): a primary in the general modem carrier range
1650–2400 Hz classifies as modem or fax — never voice or unknown —
except at exactly `|primary - 2100| = 50` (2050 or 2150 Hz), where the
CED rule (strict `< 50`) and the general-range rule (strict `> 50`) both
fail and the classifier falls through to voice (see counterexample);
when `|primary - 2100| > 50` and the primary is outside the 2400 Hz band
the confidence is `max(0.7, 1 - 0.3 * distance_from_center /
half_width)`. -/
theorem classify_modem_range_spec (p : ℚ) (rest : List ℚ)
    (h1 : 1650 ≤ p) (h2 : p ≤ 2400) (h3 : |p - 2100| ≠ 50) :
    ((classify_tone p (p :: rest)).1 = .modem ∨
      (classify_tone p (p :: rest)).1 = .fax) ∧
    (|p - 2100| > 50 → ¬ (|p - 2400| < 50) →
      classify_tone p (p :: rest) =
        (.modem,
          max (1 - |p - (1650 + 2400) / 2| / ((2400 - 1650) / 2) * (3/10))
            (7/10))) := by
  have hn1100 : ¬ (|p - 1100| < 50) := by
    rw [abs_lt]
    push_neg
    intro h'
    linarith
  have hn1200 : ¬ (|p - 1200| < 50) := by
    rw [abs_lt]
    push_neg
    intro h'
    linarith
  constructor
  · rcases lt_trichotomy (|p - 2100|) 50 with hlt | heq | hgt
    · unfold classify_tone
      rw [if_neg hn1100, if_pos hlt]
      split_ifs
      · right
        rfl
      · left
        rfl
    · exact absurd heq h3
    · have hnced : ¬ (|p - 2100| < 50) := not_lt.mpr hgt.le
      by_cases h24 : |p - 2400| < 50
      · unfold classify_tone
        rw [if_neg hn1100, if_neg hnced, if_neg hn1200, if_pos h24]
        left
        rfl
      · unfold classify_tone
        rw [if_neg hn1100, if_neg hnced, if_neg hn1200, if_neg h24,
          if_pos ⟨h1, h2, hgt⟩]
        left
        rfl
  · intro hgt h24
    have hnced : ¬ (|p - 2100| < 50) := not_lt.mpr hgt.le
    unfold classify_tone
    rw [if_neg hn1100, if_neg hnced, if_neg hn1200, if_neg h24,
      if_pos ⟨h1, h2, hgt⟩]

/-- Witness for C3 at a lone 2000 Hz carrier. -/
theorem classify_modem_range_spec_witness :
    classify_tone 2000 [2000] =
      (.modem,
        max (1 - |(2000 : ℚ) - (1650 + 2400) / 2| / ((2400 - 1650) / 2) * (3/10))
          (7/10)) :=
  (classify_modem_range_spec 2000 [] (by norm_num) (by norm_num)
    (by norm_num)).2 (by norm_num) (by norm_num)

/-- C3 counterexample: 2050 Hz lies inside 1650–2400 Hz, yet the
classifier returns voice (confidence 0.6): the CED band needs
`|f - 2100| < 50` strictly and the general-range rule needs
`|f - 2100| > 50` strictly, so the boundary falls through to the voice
rules. -/
theorem classify_modem_range_voice_cex :
    (1650 : ℚ) ≤ 2050 ∧ (2050 : ℚ) ≤ 2400 ∧
    classify_tone 2050 [2050] = (.voice, 3/5) := by
  refine ⟨by norm_num, by norm_num, ?_⟩
  have e1100 : |(2050 : ℚ) - 1100| = 950 := by norm_num
  have e2100 : |(2050 : ℚ) - 2100| = 50 := by norm_num
  have e1200 : |(2050 : ℚ) - 1200| = 850 := by norm_num
  have e2400 : |(2050 : ℚ) - 2400| = 350 := by norm_num
  unfold classify_tone voiceCheck
  rw [if_neg (by rw [e1100]; norm_num), if_neg (by rw [e2100]; norm_num),
    if_neg (by rw [e1200]; norm_num), if_neg (by rw [e2400]; norm_num),
    if_neg (by rw [e2100]; norm_num)]
  have hflt : (List.filter (fun f => decide (300 ≤ f ∧ f ≤ 3400))
      ([2050] : List ℚ)).length ≤ 1 := by
    calc (List.filter (fun f => decide (300 ≤ f ∧ f ≤ 3400))
        ([2050] : List ℚ)).length ≤ ([2050] : List ℚ).length :=
        List.length_filter_le _ _
      _ = 1 := rfl
  rw [if_neg (by rintro ⟨h3, -⟩; omega), if_pos ⟨by norm_num, by norm_num⟩]

/-! ## C7, C9: recording ingest -/

/-- C7: `analyze_recording` never propagates an exception (the embedded
function is total and both `except` clauses of the source feed the same
tagged-result branch): whenever the download or the decode fails, the
result has tone_type unknown, no peak frequency, confidence 0.0, and the
error field populated with the failure cause, so the pipeline around it
keeps functioning. -/
theorem analyze_recording_ingest_failure {Bytes : Type}
    (download : Except String Bytes)
    (decode : Bytes → Except String (Nat × List ℚ))
    (fft_analysis : List ℚ → Nat → AnalysisResult) :
    (∀ e, download = .error e →
      analyze_recording download decode fft_analysis =
        ⟨.unknown, none, 0, [], some e⟩) ∧
    (∀ b e, download = .ok b → decode b = .error e →
      analyze_recording download decode fft_analysis =
        ⟨.unknown, none, 0, [], some e⟩) := by
  constructor
  · intro e he
    subst he
    rfl
  · intro b e hb hd
    subst hb
    have hred : analyze_recording (Except.ok b) decode fft_analysis =
        match decode b with
        | .error e => ⟨.unknown, none, 0, [], some e⟩
        | .ok (sample_rate, samples) =>
          fft_analysis (normalizeIngest samples) sample_rate := rfl
    rw [hred, hd]

/-- Witness for C7 at a concrete failed download. -/
theorem analyze_recording_ingest_failure_witness :
    analyze_recording (Except.error "connection timed out" : Except String Unit)
      (fun _ => .ok (8000, []))
      (fun _ _ => ⟨.unknown, none, 0, [], none⟩) =
      ⟨.unknown, none, 0, [], some "connection timed out"⟩ :=
  (analyze_recording_ingest_failure _ _ _).1 "connection timed out" rfl

/-- C9: the source normalizes by the signed maximum sample
(`audio.max()`), not by the maximum absolute value the spec describes:
for the decoded buffer `[-4, 1]` the maximum is 1, the division is a
no-op, and the sample `-4` reaches the analyzer outside `[-1, 1]`; an
all-negative buffer such as `[-2, -1]` is not normalized at all. -/
theorem normalize_ingest_signed_max_eval :
    normalizeIngest [(-4 : ℚ), 1] = [-4, 1] ∧
    ((-4 : ℚ) < -1) ∧
    normalizeIngest [(-2 : ℚ), -1] = [-2, -1] ∧
    downmixStereo [((-4 : ℚ), -4), (1, 1)] = [-4, 1] := by
  refine ⟨?_, by norm_num, ?_, ?_⟩
  · unfold normalizeIngest sampleMax
    norm_num
  · unfold normalizeIngest sampleMax
    norm_num
  · unfold downmixStereo
    norm_num

/-! ## C8: shutdown wait of the VoIP backend -/

/-- C8: the shutdown wait never raises (each per-job wait is wrapped in
the swallowing `except` and the embedding is a total function over every
job outcome — completed, failed, or stuck); each still-pending job is
waited on for at most the per-job timeout and the total elapsed wait is
bounded by `timeout * pending_count`; afterwards the pending map is
empty; and an immediate second call is a no-op returning the same
state. -/
theorem await_all_spec (timeout : ℚ) (st : VoIPState) :
    (wait_for_pending_analyses timeout st).2.pending_analyses = [] ∧
    (∀ kv ∈ st.pending_analyses, waitOne timeout kv.2 ≤ timeout) ∧
    (wait_for_pending_analyses timeout st).1 ≤
      timeout * st.pending_analyses.length ∧
    wait_for_pending_analyses timeout (wait_for_pending_analyses timeout st).2 =
      (0, (wait_for_pending_analyses timeout st).2) := by
  have hone : ∀ kv ∈ st.pending_analyses, waitOne timeout kv.2 ≤ timeout := by
    intro kv _
    cases kv.2 with
    | completed d r => exact min_le_right d timeout
    | failed d m => exact min_le_right d timeout
    | stuck => exact le_refl timeout
  by_cases hemp : st.pending_analyses.isEmpty
  · have hnil : st.pending_analyses = [] := List.isEmpty_iff.mp hemp
    unfold wait_for_pending_analyses
    rw [if_pos hemp]
    refine ⟨hnil, hone, ?_, ?_⟩
    · simp [hnil]
    · rw [if_pos hemp]
  · unfold wait_for_pending_analyses
    rw [if_neg hemp]
    refine ⟨rfl, hone, ?_, ?_⟩
    · have hb : ∀ x ∈ st.pending_analyses.map (fun kv => waitOne timeout kv.2),
          x ≤ timeout := by
        intro x hx
        obtain ⟨kv, hkv, rfl⟩ := List.mem_map.mp hx
        exact hone kv hkv
      have := List.sum_le_card_nsmul _ _ hb
      rwa [List.length_map, nsmul_eq_mul, mul_comm] at this
    · rfl

/-- Witness for C8 at a single stuck job and a 5 second timeout. -/
theorem await_all_spec_witness :
    (wait_for_pending_analyses 5
      ⟨[("CA123", JobOutcome.stuck)]⟩).2.pending_analyses = [] ∧
    waitOne 5 ("CA123", JobOutcome.stuck).2 ≤ 5 :=
  ⟨(await_all_spec 5 ⟨[("CA123", JobOutcome.stuck)]⟩).1,
    (await_all_spec 5 ⟨[("CA123", JobOutcome.stuck)]⟩).2.1
      ("CA123", JobOutcome.stuck) (by simp)⟩

end Vibedialer
